import Mathlib

/-!
# Verification of the buildpack lifecycle core

Shallow embedding of the build executor (`buildpacktoml.go`), the rebase
mirror selection (`platform` package) and the build environment
construction (`env` package) of the `lifecycle` repository, together with
theorems settling the specification claims about them.

Conventions:
* Go strings are `String`; the Go zero value `""` represents an unset field.
* Go `error` returns become `Except String`; a domain (lifecycle) error is
  a dedicated constructor carrying its kind.
* Go maps used only through lookup are association lists with first-match
  lookup (Go maps have unique keys).
* Filesystem and subprocess effects are passed in as explicit data
  (decoded file contents, child-process outcome, an environment oracle).
-/

/-- Buildpack API version, e.g. `0.2`, `0.4`, `0.5`.
Modelled from the spec: the `api` package (not under src/) parses and
compares semver-like versions ordinally (major, then minor). -/
structure APIVersion where
  major : Nat
  minor : Nat
deriving DecidableEq, Repr

/-- `api.Compare(a, b) < 0`, i.e. `a` is strictly older than `b`. -/
def APIVersion.lessThan (a b : APIVersion) : Bool :=
  a.major < b.major || (a.major == b.major && a.minor < b.minor)

/-- `api.Equal`. -/
def APIVersion.equal (a b : APIVersion) : Bool :=
  a.major == b.major && a.minor == b.minor

def v0_2 : APIVersion := ⟨0, 2⟩

def v0_5 : APIVersion := ⟨0, 5⟩

/-- `BuildpackInfo` of `buildpack.toml` (`buildpack` table). -/
structure BuildpackInfo where
  id : String
  version : String
  name : String
  clearEnv : Bool
  homepage : String
deriving DecidableEq, Repr

/-- The `Buildpack` identity record stamped onto BOM entries.
The Go struct has fields ID, Version, API, Homepage; the zero value has
every field `""`. -/
structure Buildpack where
  id : String
  version : String
  api : String
  homepage : String
deriving DecidableEq, Repr

/-- Modelled from the spec: `Buildpack.noAPI` (not under src/) returns a
copy with the API field cleared. -/
def Buildpack.noAPI (b : Buildpack) : Buildpack := { b with api := "" }

/-- Modelled from the spec: `Buildpack.noHomepage` (not under src/) returns
a copy with the homepage field cleared. -/
def Buildpack.noHomepage (b : Buildpack) : Buildpack := { b with homepage := "" }

/-- A plan entry (`Require`). `metadata` is the string-keyed metadata map;
values stand for their Go `%v` stringification, which is all
`buildpacktoml.go` ever observes of them. -/
structure Require where
  name : String
  version : String
  metadata : List (String × String)
deriving DecidableEq, Repr

/-- Lookup of `Metadata["version"]` followed by `fmt.Sprintf("%v", ·)`. -/
def Require.metadataVersion (r : Require) : Option String :=
  (r.metadata.find? (fun kv => kv.fst == "version")).map (·.snd)

/-- Modelled from the spec: `Require.convertMetadataToVersion` (not under
src/) — for an entry with `metadata.version` set but `version` empty, the
metadata version is copied into the top-level version field. -/
def Require.convertMetadataToVersion (r : Require) : Require :=
  match r.metadataVersion with
  | some v => if r.version = "" then { r with version := v } else r
  | none => r

/-- A BOM entry: an embedded `Require` plus the producing buildpack. -/
structure BOMEntry where
  require : Require
  buildpack : Buildpack
deriving DecidableEq, Repr

/-- The zero `Buildpack` value (all fields unset). -/
def emptyBuildpack : Buildpack := ⟨"", "", "", ""⟩

/-- An `unmet` claim from `build.toml`. -/
structure Unmet where
  name : String
deriving DecidableEq, Repr

/-- A buildpack plan: `{ entries: [Require] }`. -/
structure BuildpackPlan where
  entries : List Require
deriving DecidableEq, Repr

structure Label where
  key : String
  value : String
deriving DecidableEq, Repr

/-- A launch process; `buildpackID` is stamped by the executor. -/
structure Process where
  type : String
  command : String
  args : List String
  direct : Bool
  buildpackID : String
deriving DecidableEq, Repr

structure Slice where
  paths : List String
deriving DecidableEq, Repr

/-- Decoded `build.toml` (buildpack API ≥ 0.5). -/
structure BuildTOML where
  bom : List BOMEntry
  unmet : List Unmet
deriving DecidableEq, Repr

/-- Decoded `launch.toml`. -/
structure LaunchTOML where
  bom : List BOMEntry
  labels : List Label
  processes : List Process
  slices : List Slice
deriving DecidableEq, Repr

/-- The per-buildpack build result. -/
structure BuildResult where
  bom : List BOMEntry
  labels : List Label
  met : List String
  processes : List Process
  slices : List Slice
deriving DecidableEq, Repr

/-- `BuildpackPlan.toBOM`: wrap each entry, buildpack left at its zero value. -/
def BuildpackPlan.toBOM (p : BuildpackPlan) : List BOMEntry :=
  p.entries.map (fun e => { require := e, buildpack := emptyBuildpack })

/-- `names`: the entry names, in order. -/
def names (requires : List Require) : List String :=
  requires.map (·.name)

/-- `containsName`. -/
def containsName (unmet : List Unmet) (name : String) : Bool :=
  unmet.any (fun u => u.name == name)

/-- `BuildpackPlan.filter`: keep entries not named by an unmet claim. -/
def BuildpackPlan.filter (p : BuildpackPlan) (unmet : List Unmet) : BuildpackPlan :=
  { entries := p.entries.filter (fun e => !containsName unmet e.name) }

/-- `withBuildpack`: stamp each BOM entry with the identity of the
producing buildpack, API and homepage cleared. -/
def withBuildpack (bp : Buildpack) (bom : List BOMEntry) : List BOMEntry :=
  bom.map (fun e => { e with buildpack := bp.noAPI.noHomepage })

/-- Error message of the legacy (API < 0.5) BOM version check. -/
def bomVersionMismatchMsg : String :=
  "top level version does not match metadata version"

/-- Error message of the modern (API ≥ 0.5) BOM version check; the format
string is split so the deprecation clause is a syntactic suffix. -/
def deprecatedVersionMsg (name : String) : String :=
  ("bom entry '" ++ name ++ "' has a ") ++ "top level version which is deprecated"

/-- `validateBOM` loop for buildpack API < 0.5: when both the top-level
version and `metadata["version"]` are set they must agree. -/
def validateBOMLegacy : List BOMEntry → Except String Unit
  | [] => .ok ()
  | e :: rest =>
    match e.require.metadataVersion with
    | some mv =>
      if e.require.version != "" && e.require.version != mv then
        .error bomVersionMismatchMsg
      else
        validateBOMLegacy rest
    | none => validateBOMLegacy rest

/-- `validateBOM` loop for buildpack API ≥ 0.5: a set top-level version is
rejected outright. -/
def validateBOMModern : List BOMEntry → Except String Unit
  | [] => .ok ()
  | e :: rest =>
    if e.require.version != "" then
      .error (deprecatedVersionMsg e.require.name)
    else
      validateBOMModern rest

/-- `validateBOM`. -/
def validateBOM (bom : List BOMEntry) (bpAPI : APIVersion) : Except String Unit :=
  if bpAPI.lessThan v0_5 then validateBOMLegacy bom else validateBOMModern bom

/-- `validateUnmet`: every unmet claim must carry a non-empty name that
names some input plan entry. -/
def validateUnmet (unmet : List Unmet) (bpPlan : BuildpackPlan) : Except String Unit :=
  match unmet with
  | [] => .ok ()
  | u :: rest =>
    if u.name == "" then
      .error "unmet.name is required"
    else if bpPlan.entries.any (fun req => u.name == req.name) then
      validateUnmet rest bpPlan
    else
      .error ("unmet.name '" ++ u.name ++ "' must match a requested dependency")

/-- `readOutputFiles`: reconcile the decoded output files into a
`BuildResult`. The decoded `launch.toml` (`launchTOML`), the rewritten
`plan.toml` (`planOut`, consulted only for API < 0.5) and the decoded
`build.toml` (`buildTOML`, consulted only for API ≥ 0.5) are passed as
data; `planIn` is the input plan as serialized for the child. -/
def readOutputFiles (api : APIVersion) (bp : BuildpackInfo)
    (launchTOML : LaunchTOML) (planOut : BuildpackPlan) (buildTOML : BuildTOML)
    (planIn : BuildpackPlan) : Except String BuildResult :=
  let bpFromBpInfo : Buildpack := { id := bp.id, version := bp.version, api := "", homepage := "" }
  let finish : List BOMEntry → List String → BuildResult := fun bom met =>
    { bom := bom
      labels := launchTOML.labels
      met := met
      processes := launchTOML.processes.map (fun p => { p with buildpackID := bp.id })
      slices := launchTOML.slices }
  if api.lessThan v0_5 then
    match validateBOM planOut.toBOM api with
    | .error m => .error m
    | .ok _ => .ok (finish (withBuildpack bpFromBpInfo planOut.toBOM) (names planOut.entries))
  else
    match validateBOM launchTOML.bom api with
    | .error m => .error m
    | .ok _ =>
      match validateBOM buildTOML.bom api with
      | .error m => .error m
      | .ok _ =>
        match validateUnmet buildTOML.unmet planIn with
        | .error m => .error m
        | .ok _ =>
          .ok (finish (withBuildpack bpFromBpInfo launchTOML.bom)
                (names (planIn.filter buildTOML.unmet).entries))

/-- `preparePlan` — the plan as serialized for the child: `Build` first
applies the API-0.2 compatibility shim to every entry. -/
def preparedPlan (api : APIVersion) (bpPlan : BuildpackPlan) : BuildpackPlan :=
  if api.equal v0_2 then
    { entries := bpPlan.entries.map Require.convertMetadataToVersion }
  else
    bpPlan

/-- Outcome of `cmd.Run()` for the child `bin/build` process. -/
inductive RunOutcome where
  | started (exitCode : Nat)
  | startFailed (msg : String)
deriving DecidableEq, Repr

/-- Modelled from the spec: the lifecycle error kinds (`ErrType*`, not
under src/). Only the buildpack kind is produced in the embedded code;
all other failures stay untyped (`BuildError.raw`). -/
inductive ErrType where
  | buildpack
deriving DecidableEq, Repr

/-- An error escaping `Build`: either a typed lifecycle error
(`NewLifecycleError`, modelled from the spec as tagging a message with its
kind) or an untyped Go error. -/
inductive BuildError where
  | lifecycle (t : ErrType) (msg : String)
  | raw (msg : String)
deriving DecidableEq, Repr

/-- A directory listing entry as returned by `ioutil.ReadDir` (which
sorts by filename, so the listing is in lexical order). -/
structure DirEntry where
  name : String
  isDir : Bool
deriving DecidableEq, Repr

/-- `filepath.Join` on two components. -/
def pathJoin (a b : String) : String := a ++ "/" ++ b

/-- The environment operations `setupEnv` issues against the `BuildEnv`. -/
inductive EnvOp where
  | addRootDir (path : String)
  | addEnvDir (path : String)
deriving DecidableEq, Repr

/-- An environment oracle: the outcome of each `BuildEnv` call. -/
def EnvOracle : Type := EnvOp → Except String Unit

/-- `eachDir`: apply `fn` to each directory of the listing in order,
skipping non-directories, stopping at the first error. -/
def eachDir (dir : String) (listing : List DirEntry) (fn : String → Except String Unit) :
    Except String Unit :=
  match listing with
  | [] => .ok ()
  | f :: rest =>
    if !f.isDir then
      eachDir dir rest fn
    else
      match fn (pathJoin dir f.name) with
      | .error m => .error m
      | .ok _ => eachDir dir rest fn

/-- `setupEnv`: two passes over the layers dir — all `AddRootDir` calls
for build-flagged layer dirs first, then for each build-flagged layer dir
the `AddEnvDir` calls for `env` and `env.build`. `isBuildAt` gives the
result of `isBuild` at each sibling `.toml` path. -/
def setupEnv (env : EnvOracle) (isBuildAt : String → Bool) (layersDir : String)
    (listing : List DirEntry) : Except String Unit :=
  match eachDir layersDir listing (fun path =>
      if !isBuildAt (path ++ ".toml") then .ok ()
      else env (.addRootDir path)) with
  | .error m => .error m
  | .ok _ =>
    eachDir layersDir listing (fun path =>
      if !isBuildAt (path ++ ".toml") then .ok ()
      else
        match env (.addEnvDir (pathJoin path "env")) with
        | .error m => .error m
        | .ok _ => env (.addEnvDir (pathJoin path "env.build")))

/-- The build-flagged layer directories, in listing (lexical) order. -/
def buildDirs (layersDir : String) (isBuildAt : String → Bool)
    (listing : List DirEntry) : List String :=
  ((listing.filter (·.isDir)).map (fun f => pathJoin layersDir f.name)).filter
    (fun p => isBuildAt (p ++ ".toml"))

/-- Run a sequence of environment operations, stopping at the first error. -/
def runOps (env : EnvOracle) : List EnvOp → Except String Unit
  | [] => .ok ()
  | op :: rest =>
    match env op with
    | .error m => .error m
    | .ok _ => runOps env rest

/-- The call trace `setupEnv` actually issues: all root-dir additions
first, then the env-dir additions per build dir. -/
def setupEnvTrace (layersDir : String) (isBuildAt : String → Bool)
    (listing : List DirEntry) : List EnvOp :=
  (buildDirs layersDir isBuildAt listing).map .addRootDir ++
    ((buildDirs layersDir isBuildAt listing).map
      (fun d => [EnvOp.addEnvDir (pathJoin d "env"), EnvOp.addEnvDir (pathJoin d "env.build")])).flatten

/-- Follows the claim's words (for comparison only): per build dir, call
`AddRootDir(dir)` then `AddEnvDir(dir/env)` then `AddEnvDir(dir/env.build)`,
directories in lexical order. -/
def claimedSetupEnvTrace (layersDir : String) (isBuildAt : String → Bool)
    (listing : List DirEntry) : List EnvOp :=
  ((buildDirs layersDir isBuildAt listing).map
    (fun d => [EnvOp.addRootDir d,
               EnvOp.addEnvDir (pathJoin d "env"),
               EnvOp.addEnvDir (pathJoin d "env.build")])).flatten

/-- `runBuildCmd`: compose the child environment (`List()` under
clear-env, otherwise `WithPlatform`, whose failure is returned untyped)
and run the child; any `cmd.Run` failure is wrapped as a lifecycle error
of the buildpack kind. -/
def runBuildCmd (clearEnv : Bool) (withPlatform : Except String Unit)
    (run : RunOutcome) : Except BuildError Unit :=
  match (if clearEnv then Except.ok () else withPlatform) with
  | .error m => .error (.raw m)
  | .ok _ =>
    match run with
    | .started 0 => .ok ()
    | .started n => .error (.lifecycle .buildpack ("exit status " ++ toString n))
    | .startFailed m => .error (.lifecycle .buildpack m)

/-- `Build`: the per-buildpack executor pipeline. Effectful steps are
passed as data: `prepare` is the outcome of `preparePaths` (directory
creation and plan serialization), `withPlatform` the outcome of
`Env.WithPlatform`, `run` the child-process outcome, `env`/`isBuildAt`/
`listing` drive `setupEnv`, and the decoded output files feed
`readOutputFiles`. -/
def Build (api : APIVersion) (bp : BuildpackInfo) (bpPlan : BuildpackPlan)
    (prepare : Except String Unit) (withPlatform : Except String Unit)
    (run : RunOutcome) (env : EnvOracle) (isBuildAt : String → Bool)
    (bpLayersDir : String) (listing : List DirEntry)
    (launchTOML : LaunchTOML) (planOut : BuildpackPlan) (buildTOML : BuildTOML) :
    Except BuildError BuildResult :=
  let planIn := preparedPlan api bpPlan
  match prepare with
  | .error m => .error (.raw m)
  | .ok _ =>
    match runBuildCmd bp.clearEnv withPlatform run with
    | .error e => .error e
    | .ok _ =>
      match setupEnv env isBuildAt bpLayersDir listing with
      | .error m => .error (.raw m)
      | .ok _ =>
        match readOutputFiles api bp launchTOML planOut buildTOML planIn with
        | .error m => .error (.raw m)
        | .ok br => .ok br

/-- `RunImageForExport`: the stored `{image, mirrors}` record. -/
structure RunImageForExport where
  image : String
  mirrors : List String
deriving DecidableEq, Repr

/-- `byRegistry`: the first image that parses, whose registry equals the
target and whose read-access probe succeeds; `""` when there is none.
`parseRegistry` stands for `name.ParseReference` followed by
`.Context().RegistryStr()` (`none` on parse error); `access` is the
`CheckReadAccess` probe closed over the keychain. -/
def byRegistry (reg : String) (images : List String)
    (parseRegistry : String → Option String) (access : String → Bool) : String :=
  match images with
  | [] => ""
  | img :: rest =>
    match parseRegistry img with
    | none => byRegistry reg rest parseRegistry access
    | some r =>
      if r == reg && access img then img
      else byRegistry reg rest parseRegistry access

/-- `BestRunImageMirrorFor`: candidate list is the image followed by its
mirrors; `keychain` is the outcome of `auth.DefaultKeychain`. -/
def bestRunImageMirrorFor (targetRegistry : String) (runImageMD : RunImageForExport)
    (parseRegistry : String → Option String) (access : String → Bool)
    (keychain : Except String Unit) : Except String String :=
  if runImageMD.image == "" then .error "missing run image metadata"
  else
    match keychain with
    | .error m => .error ("unable to create keychain: " ++ m)
    | .ok _ =>
      let runImageMirrors := runImageMD.image :: runImageMD.mirrors
      let runImageRef := byRegistry targetRegistry runImageMirrors parseRegistry access
      if runImageRef != "" then .ok runImageRef
      else
        match runImageMirrors.find? access with
        | some image => .ok image
        | none => .error "failed to find accessible run image"

/-- Follows the spec's amended words (for comparison only): pick the first
candidate on the target registry that passes the read-access probe, else
the first candidate that passes the probe, else fail. -/
def mirrorSelectionSpec (targetRegistry : String) (runImageMD : RunImageForExport)
    (parseRegistry : String → Option String) (access : String → Bool)
    (keychain : Except String Unit) : Except String String :=
  if runImageMD.image == "" then .error "missing run image metadata"
  else
    match keychain with
    | .error m => .error ("unable to create keychain: " ++ m)
    | .ok _ =>
      let candidates := runImageMD.image :: runImageMD.mirrors
      match candidates.find? (fun i => parseRegistry i == some targetRegistry && access i) with
      | some image => .ok image
      | none =>
        match candidates.find? access with
        | some image => .ok image
        | none => .error "failed to find accessible run image"

/-- Follows the claim's words (for comparison only): the first candidate
whose parsed registry equals the target registry, regardless of access. -/
def claimedFirstByRegistry (reg : String) (candidates : List String)
    (parseRegistry : String → Option String) : Option String :=
  candidates.find? (fun i => parseRegistry i == some reg)

/-- `BuildEnvAllowlist`. -/
def BuildEnvAllowlist : List String := ["CNB_STACK_ID", "HOSTNAME", "HOME"]

/-- `POSIXBuildEnv`: directory basename → variables rooted there. -/
def POSIXBuildEnv : List (String × List String) :=
  [("bin", ["PATH"]),
   ("lib", ["LD_LIBRARY_PATH", "LIBRARY_PATH"]),
   ("include", ["CPATH"]),
   ("pkgconfig", ["PKG_CONFIG_PATH"])]

/-- `isNotAllowlisted`: a variable name that is neither in the allowlist
nor named by the POSIX root-dir map. -/
def isNotAllowlisted (k : String) : Bool :=
  !(BuildEnvAllowlist.contains k) && !(POSIXBuildEnv.any (fun p => p.snd.contains k))

/-- The `Env` object: root-dir map plus current variables. The Go `Vars`
map is modelled as the association list of kept environ pairs. -/
structure Env where
  rootDirMap : List (String × List String)
  vars : List (String × String)
deriving DecidableEq, Repr

/-- Modelled from the spec: `varsFromEnviron` (not under src/) keeps each
caller variable whose name the removal predicate does not reject. The
caller environ is the parsed `KEY=VALUE` list. -/
def varsFromEnviron (environ : List (String × String)) (removeKey : String → Bool) :
    List (String × String) :=
  environ.filter (fun kv => !removeKey kv.fst)

/-- `NewBuildEnv`. -/
def NewBuildEnv (environ : List (String × String)) : Env :=
  { rootDirMap := POSIXBuildEnv
    vars := varsFromEnviron environ isNotAllowlisted }

/-- The variable names `NewBuildEnv` keeps: the allowlist plus every name
in the POSIX root-dir map. -/
def allowedNames : List String :=
  ["CNB_STACK_ID", "HOSTNAME", "HOME",
   "PATH", "LD_LIBRARY_PATH", "LIBRARY_PATH", "CPATH", "PKG_CONFIG_PATH"]

/-! ## Theorems -/

theorem containsName_eq_true_iff (unmet : List Unmet) (n : String) :
    containsName unmet n = true ↔ ∃ u ∈ unmet, u.name = n := by
  simp [containsName, List.any_eq_true]

theorem names_filter_eq (p : BuildpackPlan) (unmet : List Unmet) :
    names (p.filter unmet).entries
      = (names p.entries).filter (fun n => !containsName unmet n) := by
  show (p.entries.filter _).map _ = (p.entries.map _).filter _
  induction p.entries with
  | nil => rfl
  | cons e rest ih =>
    simp only [List.filter_cons, List.map_cons]
    cases h : !containsName unmet e.name <;> simp [h, ih]

/-- **C1.** For a buildpack with API ≥ 0.5, the returned result's `Met`
list is the input plan's name list with the names claimed in `Unmet`
filtered out, so each input entry's name lands in exactly one of `Met`
and `Unmet`. -/
theorem met_unmet_partition (api : APIVersion) (bp : BuildpackInfo)
    (launchTOML : LaunchTOML) (planOut : BuildpackPlan) (buildTOML : BuildTOML)
    (planIn : BuildpackPlan) (br : BuildResult)
    (hapi : api.lessThan v0_5 = false)
    (hok : readOutputFiles api bp launchTOML planOut buildTOML planIn = .ok br) :
    br.met = (names planIn.entries).filter (fun n => !containsName buildTOML.unmet n) ∧
    ∀ e ∈ planIn.entries,
      (e.name ∈ br.met ∧ ¬ ∃ u ∈ buildTOML.unmet, u.name = e.name) ∨
      (e.name ∉ br.met ∧ ∃ u ∈ buildTOML.unmet, u.name = e.name) := by
  have hbr : br.met = names (planIn.filter buildTOML.unmet).entries := by
    simp only [readOutputFiles, hapi, Bool.false_eq_true, if_false] at hok
    split at hok
    · exact absurd hok (by simp)
    · split at hok
      · exact absurd hok (by simp)
      · split at hok
        · exact absurd hok (by simp)
        · cases hok
          rfl
  constructor
  · rw [hbr, names_filter_eq]
  · intro e he
    by_cases hc : containsName buildTOML.unmet e.name = true
    · right
      refine ⟨?_, (containsName_eq_true_iff _ _).mp hc⟩
      rw [hbr, names_filter_eq]
      intro hmem
      have h2 := (List.mem_filter.mp hmem).2
      simp [hc] at h2
    · left
      have hc' : containsName buildTOML.unmet e.name = false := by
        cases h : containsName buildTOML.unmet e.name
        · rfl
        · exact absurd h hc
      refine ⟨?_, ?_⟩
      · rw [hbr, names_filter_eq]
        refine List.mem_filter.mpr ⟨?_, by simp [hc']⟩
        exact List.mem_map_of_mem (·.name) he
      · intro hu
        exact hc ((containsName_eq_true_iff _ _).mpr hu)

/-- Witness for `met_unmet_partition` at a concrete input. -/
theorem met_unmet_partition_witness :
    (⟨[], [], ["d"], [], []⟩ : BuildResult).met =
      (names (⟨[⟨"d", "", []⟩, ⟨"u", "", []⟩]⟩ : BuildpackPlan).entries).filter
        (fun n => !containsName (⟨[], [⟨"u"⟩]⟩ : BuildTOML).unmet n) ∧
    ∀ e ∈ (⟨[⟨"d", "", []⟩, ⟨"u", "", []⟩]⟩ : BuildpackPlan).entries,
      (e.name ∈ (⟨[], [], ["d"], [], []⟩ : BuildResult).met ∧
        ¬ ∃ u ∈ (⟨[], [⟨"u"⟩]⟩ : BuildTOML).unmet, u.name = e.name) ∨
      (e.name ∉ (⟨[], [], ["d"], [], []⟩ : BuildResult).met ∧
        ∃ u ∈ (⟨[], [⟨"u"⟩]⟩ : BuildTOML).unmet, u.name = e.name) :=
  met_unmet_partition v0_5 ⟨"A", "v1", "Buildpack A", false, "hp"⟩ ⟨[], [], [], []⟩
    ⟨[]⟩ ⟨[], [⟨"u"⟩]⟩ ⟨[⟨"d", "", []⟩, ⟨"u", "", []⟩]⟩ ⟨[], [], ["d"], [], []⟩ rfl rfl

theorem validateBOMModern_error_of_mem (bom : List BOMEntry) (e : BOMEntry)
    (hmem : e ∈ bom) (hver : e.require.version ≠ "") :
    ∃ name, validateBOMModern bom = .error (deprecatedVersionMsg name) := by
  induction bom with
  | nil => cases hmem
  | cons b rest ih =>
    by_cases hb : b.require.version = ""
    · have hbf : (b.require.version != "") = false := by simp [hb]
      rcases List.mem_cons.mp hmem with he | he
      · exact absurd hb (he ▸ hver)
      · obtain ⟨n, hn⟩ := ih he
        exact ⟨n, by simp [validateBOMModern, hbf, hn]⟩
    · exact ⟨b.require.name, by simp [validateBOMModern, hb]⟩

theorem validateBOMModern_error_form (bom : List BOMEntry) (m : String)
    (h : validateBOMModern bom = .error m) : ∃ name, m = deprecatedVersionMsg name := by
  induction bom with
  | nil => simp [validateBOMModern] at h
  | cons b rest ih =>
    simp only [validateBOMModern] at h
    split at h
    · cases h
      exact ⟨b.require.name, rfl⟩
    · exact ih h

/-- **C2.** For a buildpack with API ≥ 0.5, a BOM entry from `launch.toml`
or `build.toml` with its top-level version set (non-empty, the Go zero
value `""` being the only representation of unset) makes the build fail
with an error containing "top level version which is deprecated". -/
theorem toplevel_version_rejected (api : APIVersion) (bp : BuildpackInfo)
    (launchTOML : LaunchTOML) (planOut : BuildpackPlan) (buildTOML : BuildTOML)
    (planIn : BuildpackPlan) (e : BOMEntry)
    (hapi : api.lessThan v0_5 = false)
    (hmem : e ∈ launchTOML.bom ∨ e ∈ buildTOML.bom)
    (hver : e.require.version ≠ "") :
    ∃ m, readOutputFiles api bp launchTOML planOut buildTOML planIn = .error m ∧
      ∃ pre, m = pre ++ "top level version which is deprecated" := by
  have hvb : validateBOM launchTOML.bom api = validateBOMModern launchTOML.bom := by
    simp [validateBOM, hapi]
  have hvb2 : validateBOM buildTOML.bom api = validateBOMModern buildTOML.bom := by
    simp [validateBOM, hapi]
  rcases hmem with hm | hm
  · obtain ⟨n, hn⟩ := validateBOMModern_error_of_mem launchTOML.bom e hm hver
    refine ⟨deprecatedVersionMsg n, ?_, "bom entry '" ++ n ++ "' has a ", rfl⟩
    simp [readOutputFiles, hapi, hvb, hn]
  · cases hlv : validateBOMModern launchTOML.bom with
    | error m =>
      obtain ⟨n, hn⟩ := validateBOMModern_error_form _ _ hlv
      refine ⟨m, ?_, ?_⟩
      · simp [readOutputFiles, hapi, hvb, hlv]
      · exact ⟨"bom entry '" ++ n ++ "' has a ", by rw [hn, deprecatedVersionMsg]⟩
    | ok u =>
      obtain ⟨n, hn⟩ := validateBOMModern_error_of_mem buildTOML.bom e hm hver
      refine ⟨deprecatedVersionMsg n, ?_, "bom entry '" ++ n ++ "' has a ", rfl⟩
      simp [readOutputFiles, hapi, hvb, hlv, hvb2, hn]

/-- Witness for `toplevel_version_rejected` at a concrete input. -/
theorem toplevel_version_rejected_witness :
    ∃ m, readOutputFiles v0_5 ⟨"A", "v1", "Buildpack A", false, "hp"⟩
        ⟨[⟨⟨"some-dep", "v1", []⟩, emptyBuildpack⟩], [], [], []⟩ ⟨[]⟩ ⟨[], []⟩ ⟨[]⟩
        = .error m ∧
      ∃ pre, m = pre ++ "top level version which is deprecated" :=
  toplevel_version_rejected v0_5 ⟨"A", "v1", "Buildpack A", false, "hp"⟩
    ⟨[⟨⟨"some-dep", "v1", []⟩, emptyBuildpack⟩], [], [], []⟩ ⟨[]⟩ ⟨[], []⟩ ⟨[]⟩
    ⟨⟨"some-dep", "v1", []⟩, emptyBuildpack⟩ rfl (Or.inl (by simp)) (by decide)

theorem validateBOMLegacy_error_of_mem (bom : List BOMEntry) (e : BOMEntry) (mv : String)
    (hmem : e ∈ bom) (hmv : e.require.metadataVersion = some mv)
    (hver : e.require.version ≠ "") (hne : e.require.version ≠ mv) :
    validateBOMLegacy bom = .error bomVersionMismatchMsg := by
  induction bom with
  | nil => cases hmem
  | cons b rest ih =>
    rcases List.mem_cons.mp hmem with he | he
    · subst he
      have hc : (e.require.version != "" && e.require.version != mv) = true := by
        simp [hver, hne]
      simp [validateBOMLegacy, hmv, hc]
    · simp only [validateBOMLegacy]
      cases hm : b.require.metadataVersion with
      | none => exact ih he
      | some bmv =>
        cases hb : (b.require.version != "" && b.require.version != bmv) with
        | false =>
          simp only [hb, Bool.false_eq_true, if_false]
          exact ih he
        | true => simp [hb]

/-- **C5.** For a buildpack with API < 0.5, a BOM entry derived from the
rewritten plan with both the top-level version and `metadata["version"]`
set but unequal makes the build fail with "top level version does not
match metadata version". -/
theorem version_mismatch_legacy (api : APIVersion) (bp : BuildpackInfo)
    (launchTOML : LaunchTOML) (planOut : BuildpackPlan) (buildTOML : BuildTOML)
    (planIn : BuildpackPlan) (e : Require) (mv : String)
    (hapi : api.lessThan v0_5 = true)
    (hmem : e ∈ planOut.entries)
    (hmv : e.metadataVersion = some mv)
    (hver : e.version ≠ "") (hne : e.version ≠ mv) :
    readOutputFiles api bp launchTOML planOut buildTOML planIn
      = .error bomVersionMismatchMsg := by
  have hbm : (⟨e, emptyBuildpack⟩ : BOMEntry) ∈ planOut.toBOM :=
    List.mem_map_of_mem _ hmem
  have hv := validateBOMLegacy_error_of_mem planOut.toBOM ⟨e, emptyBuildpack⟩ mv hbm hmv hver hne
  simp [readOutputFiles, validateBOM, hapi, hv]

/-- Witness for `version_mismatch_legacy` at a concrete input. -/
theorem version_mismatch_legacy_witness :
    readOutputFiles ⟨0, 4⟩ ⟨"A", "v1", "Buildpack A", false, "hp"⟩ ⟨[], [], [], []⟩
        ⟨[⟨"dep1", "v2", [("version", "v1")]⟩]⟩ ⟨[], []⟩ ⟨[]⟩
      = .error bomVersionMismatchMsg :=
  version_mismatch_legacy ⟨0, 4⟩ ⟨"A", "v1", "Buildpack A", false, "hp"⟩ ⟨[], [], [], []⟩
    ⟨[⟨"dep1", "v2", [("version", "v1")]⟩]⟩ ⟨[], []⟩ ⟨[]⟩
    ⟨"dep1", "v2", [("version", "v1")]⟩ "v1" rfl (by simp) rfl (by decide) (by decide)

theorem validateUnmet_ok_iff (unmet : List Unmet) (p : BuildpackPlan) :
    validateUnmet unmet p = .ok () ↔
      ∀ u ∈ unmet, u.name ≠ "" ∧ ∃ e ∈ p.entries, u.name = e.name := by
  induction unmet with
  | nil => simp [validateUnmet]
  | cons u rest ih =>
    simp only [validateUnmet]
    by_cases h1 : u.name = ""
    · simp [h1]
    · by_cases h2 : p.entries.any (fun req => u.name == req.name) = true
      · have h2' : ∃ e ∈ p.entries, u.name = e.name := by
          simpa [List.any_eq_true] using h2
        simp [h1, h2, ih, h2']
      · have h2' : ¬ ∃ e ∈ p.entries, u.name = e.name := by
          simpa [List.any_eq_true] using h2
        simp [h1, h2, h2']

/-- **C6.** For a buildpack with API ≥ 0.5, a successful build implies
every `Unmet` entry read from `build.toml` has a non-empty name matching
some input plan entry; contrapositively, an empty or unmatched name makes
the build fail. -/
theorem unmet_validated (api : APIVersion) (bp : BuildpackInfo)
    (launchTOML : LaunchTOML) (planOut : BuildpackPlan) (buildTOML : BuildTOML)
    (planIn : BuildpackPlan) (br : BuildResult)
    (hapi : api.lessThan v0_5 = false)
    (hok : readOutputFiles api bp launchTOML planOut buildTOML planIn = .ok br) :
    ∀ u ∈ buildTOML.unmet, u.name ≠ "" ∧ ∃ e ∈ planIn.entries, u.name = e.name := by
  simp only [readOutputFiles, hapi, Bool.false_eq_true, if_false] at hok
  split at hok
  · exact absurd hok (by simp)
  · split at hok
    · exact absurd hok (by simp)
    · split at hok
      · exact absurd hok (by simp)
      · rename_i u hu
        exact (validateUnmet_ok_iff _ _).mp (by rw [hu])

/-- Witness for `unmet_validated` at a concrete input and unmet entry. -/
theorem unmet_validated_witness :
    (Unmet.mk "some-unmet-dep").name ≠ "" ∧
      ∃ e ∈ (⟨[⟨"some-unmet-dep", "", []⟩]⟩ : BuildpackPlan).entries,
        (Unmet.mk "some-unmet-dep").name = e.name :=
  unmet_validated v0_5 ⟨"B", "v2", "Buildpack B", true, ""⟩ ⟨[], [], [], []⟩ ⟨[]⟩
    ⟨[], [⟨"some-unmet-dep"⟩]⟩ ⟨[⟨"some-unmet-dep", "", []⟩]⟩
    ⟨[], [], [], [], []⟩ rfl rfl ⟨"some-unmet-dep"⟩ (by simp)

/-- **C7.** For a buildpack with API = 0.2, the plan serialized for the
child has, at every position whose input entry carries a metadata version
but an empty top-level version, that metadata version copied into the
top-level version field (name and metadata unchanged). -/
theorem api02_version_shim (p : BuildpackPlan) (i : Nat) (hi : i < p.entries.length)
    (v : String)
    (hmv : (p.entries.get ⟨i, hi⟩).metadataVersion = some v)
    (hver : (p.entries.get ⟨i, hi⟩).version = "") :
    ∃ hj : i < (preparedPlan v0_2 p).entries.length,
      ((preparedPlan v0_2 p).entries.get ⟨i, hj⟩).version = v ∧
      ((preparedPlan v0_2 p).entries.get ⟨i, hj⟩).name = (p.entries.get ⟨i, hi⟩).name ∧
      ((preparedPlan v0_2 p).entries.get ⟨i, hj⟩).metadata
        = (p.entries.get ⟨i, hi⟩).metadata := by
  have heq : (preparedPlan v0_2 p).entries = p.entries.map Require.convertMetadataToVersion := by
    simp [preparedPlan, APIVersion.equal, v0_2]
  have hj : i < (preparedPlan v0_2 p).entries.length := by
    rw [heq, List.length_map]
    exact hi
  refine ⟨hj, ?_⟩
  have hget : (preparedPlan v0_2 p).entries.get ⟨i, hj⟩
      = Require.convertMetadataToVersion (p.entries.get ⟨i, hi⟩) := by
    have := List.get_of_eq heq ⟨i, hj⟩
    rw [this]
    simp [List.get_eq_getElem, List.getElem_map]
  rw [hget]
  unfold Require.convertMetadataToVersion
  rw [hmv]
  simp only [List.get_eq_getElem] at hver
  simp [hver]

/-- Witness for `api02_version_shim` at a concrete input. -/
theorem api02_version_shim_witness :
    ∃ hj : 0 < (preparedPlan v0_2 ⟨[⟨"d", "", [("version", "v1")]⟩]⟩).entries.length,
      ((preparedPlan v0_2 ⟨[⟨"d", "", [("version", "v1")]⟩]⟩).entries.get ⟨0, hj⟩).version = "v1" ∧
      ((preparedPlan v0_2 ⟨[⟨"d", "", [("version", "v1")]⟩]⟩).entries.get ⟨0, hj⟩).name
        = ((⟨[⟨"d", "", [("version", "v1")]⟩]⟩ : BuildpackPlan).entries.get ⟨0, by decide⟩).name ∧
      ((preparedPlan v0_2 ⟨[⟨"d", "", [("version", "v1")]⟩]⟩).entries.get ⟨0, hj⟩).metadata
        = ((⟨[⟨"d", "", [("version", "v1")]⟩]⟩ : BuildpackPlan).entries.get ⟨0, by decide⟩).metadata :=
  api02_version_shim ⟨[⟨"d", "", [("version", "v1")]⟩]⟩ 0 (by decide) "v1" rfl rfl

theorem mem_withBuildpack (bp : Buildpack) (bom : List BOMEntry) (e : BOMEntry)
    (h : e ∈ withBuildpack bp bom) : e.buildpack = bp.noAPI.noHomepage := by
  simp only [withBuildpack, List.mem_map] at h
  obtain ⟨a, _, ha⟩ := h
  rw [← ha]

/-- **C8.** Every BOM entry of a per-buildpack build result carries the
producing buildpack's (id, version) identity with the API and homepage
fields cleared. -/
theorem bom_buildpack_identity (api : APIVersion) (bp : BuildpackInfo)
    (launchTOML : LaunchTOML) (planOut : BuildpackPlan) (buildTOML : BuildTOML)
    (planIn : BuildpackPlan) (br : BuildResult)
    (hok : readOutputFiles api bp launchTOML planOut buildTOML planIn = .ok br) :
    ∀ e ∈ br.bom, e.buildpack = ⟨bp.id, bp.version, "", ""⟩ := by
  simp only [readOutputFiles] at hok
  split at hok
  · split at hok
    · exact absurd hok (by simp)
    · cases hok
      intro e he
      exact mem_withBuildpack _ _ _ he
  · split at hok
    · exact absurd hok (by simp)
    · split at hok
      · exact absurd hok (by simp)
      · split at hok
        · exact absurd hok (by simp)
        · cases hok
          intro e he
          exact mem_withBuildpack _ _ _ he

/-- Witness for `bom_buildpack_identity` at a concrete input and entry. -/
theorem bom_buildpack_identity_witness :
    (⟨⟨"some-dep", "", [("version", "v1")]⟩, ⟨"A", "v1", "", ""⟩⟩ : BOMEntry).buildpack
      = ⟨"A", "v1", "", ""⟩ :=
  bom_buildpack_identity v0_5 ⟨"A", "v1", "Buildpack A", false, "Buildpack A Homepage"⟩
    ⟨[⟨⟨"some-dep", "", [("version", "v1")]⟩, ⟨"", "", "", ""⟩⟩], [], [], []⟩ ⟨[]⟩ ⟨[], []⟩ ⟨[]⟩
    ⟨[⟨⟨"some-dep", "", [("version", "v1")]⟩, ⟨"A", "v1", "", ""⟩⟩], [], [], [], []⟩ rfl
    ⟨⟨"some-dep", "", [("version", "v1")]⟩, ⟨"A", "v1", "", ""⟩⟩ (by simp)

/-- **C9.** A child process that exits non-zero makes `Build` fail with a
lifecycle error of the buildpack kind, and that kind arises only from a
child-process failure (non-zero exit or failure to start) — never from
path preparation, environment composition, validation or output reading,
which all stay untyped. -/
theorem buildpack_error_kind (api : APIVersion) (bp : BuildpackInfo) (bpPlan : BuildpackPlan)
    (prepare withPlatform : Except String Unit) (run : RunOutcome) (env : EnvOracle)
    (isBuildAt : String → Bool) (bpLayersDir : String) (listing : List DirEntry)
    (launchTOML : LaunchTOML) (planOut : BuildpackPlan) (buildTOML : BuildTOML) :
    ((prepare = .ok () ∧ (bp.clearEnv = true ∨ withPlatform = .ok ()) ∧
        ∃ n, run = .started n ∧ n ≠ 0) →
      ∃ m, Build api bp bpPlan prepare withPlatform run env isBuildAt bpLayersDir listing
          launchTOML planOut buildTOML = .error (.lifecycle .buildpack m)) ∧
    (∀ m, Build api bp bpPlan prepare withPlatform run env isBuildAt bpLayersDir listing
          launchTOML planOut buildTOML = .error (.lifecycle .buildpack m) →
      (∃ n, run = .started n ∧ n ≠ 0) ∨ ∃ s, run = .startFailed s) := by
  constructor
  · rintro ⟨hp, henv, n, hrun, hn⟩
    subst hp
    subst hrun
    have henv' : (if bp.clearEnv then Except.ok () else withPlatform) = .ok () := by
      rcases henv with h | h
      · simp [h]
      · cases hc : bp.clearEnv <;> simp [h]
    have hcmd : runBuildCmd bp.clearEnv withPlatform (.started n)
        = .error (.lifecycle .buildpack ("exit status " ++ toString n)) := by
      unfold runBuildCmd
      rw [henv']
      cases n with
      | zero => exact absurd rfl hn
      | succ k => rfl
    refine ⟨"exit status " ++ toString n, ?_⟩
    simp [Build, hcmd]
  · intro m hm
    unfold Build at hm
    cases hp : prepare with
    | error s => rw [hp] at hm; exact absurd hm (by simp)
    | ok _ =>
      rw [hp] at hm
      unfold runBuildCmd at hm
      cases he : (if bp.clearEnv then Except.ok () else withPlatform) with
      | error s => rw [he] at hm; exact absurd hm (by simp)
      | ok _ =>
        rw [he] at hm
        cases hr : run with
        | startFailed s => exact Or.inr ⟨s, rfl⟩
        | started n =>
          cases n with
          | zero =>
            rw [hr] at hm
            simp only at hm
            cases hse : setupEnv env isBuildAt bpLayersDir listing with
            | error s => rw [hse] at hm; exact absurd hm (by simp)
            | ok _ =>
              rw [hse] at hm
              cases hro : readOutputFiles api bp launchTOML planOut buildTOML
                  (preparedPlan api bpPlan) with
              | error s => rw [hro] at hm; exact absurd hm (by simp)
              | ok br => rw [hro] at hm; exact absurd hm (by simp)
          | succ k => exact Or.inl ⟨k + 1, rfl, Nat.succ_ne_zero k⟩

/-- Witness for `buildpack_error_kind` at a concrete input: exit code 1. -/
theorem buildpack_error_kind_witness :
    ∃ m, Build v0_5 ⟨"A", "v1", "Buildpack A", true, ""⟩ ⟨[]⟩ (.ok ()) (.ok ())
        (.started 1) (fun _ => .ok ()) (fun _ => false) "layers/A" []
        ⟨[], [], [], []⟩ ⟨[]⟩ ⟨[], []⟩ = .error (.lifecycle .buildpack m) :=
  (buildpack_error_kind v0_5 ⟨"A", "v1", "Buildpack A", true, ""⟩ ⟨[]⟩ (.ok ()) (.ok ())
      (.started 1) (fun _ => .ok ()) (fun _ => false) "layers/A" []
      ⟨[], [], [], []⟩ ⟨[]⟩ ⟨[], []⟩).1
    ⟨rfl, Or.inl rfl, 1, rfl, by decide⟩

theorem runOps_append (env : EnvOracle) (l1 l2 : List EnvOp) :
    runOps env (l1 ++ l2)
      = match runOps env l1 with
        | .error m => .error m
        | .ok _ => runOps env l2 := by
  induction l1 with
  | nil => simp [runOps]
  | cons op rest ih =>
    simp only [List.cons_append, runOps]
    cases env op <;> simp [ih]

theorem eachDir_pass1 (env : EnvOracle) (isBuildAt : String → Bool) (dir : String)
    (listing : List DirEntry) :
    eachDir dir listing (fun path =>
        if !isBuildAt (path ++ ".toml") then .ok ()
        else env (.addRootDir path))
      = runOps env ((buildDirs dir isBuildAt listing).map .addRootDir) := by
  induction listing with
  | nil => rfl
  | cons f rest ih =>
    simp only [eachDir, buildDirs, List.filter_cons, List.map_cons]
    cases hd : f.isDir with
    | false => simpa [hd, buildDirs] using ih
    | true =>
      cases hb : isBuildAt (pathJoin dir f.name ++ ".toml") with
      | false => simpa [hd, hb, buildDirs] using ih
      | true =>
        simp only [hd, hb, Bool.not_true, Bool.false_eq_true, if_false, if_true,
          List.filter_cons, List.map_cons, runOps]
        cases env (.addRootDir (pathJoin dir f.name)) with
        | error m => simp
        | ok _ => simpa [buildDirs] using ih

theorem eachDir_pass2 (env : EnvOracle) (isBuildAt : String → Bool) (dir : String)
    (listing : List DirEntry) :
    eachDir dir listing (fun path =>
        if !isBuildAt (path ++ ".toml") then .ok ()
        else
          match env (.addEnvDir (pathJoin path "env")) with
          | .error m => .error m
          | .ok _ => env (.addEnvDir (pathJoin path "env.build")))
      = runOps env (((buildDirs dir isBuildAt listing).map
          (fun d => [EnvOp.addEnvDir (pathJoin d "env"),
                     EnvOp.addEnvDir (pathJoin d "env.build")])).flatten) := by
  induction listing with
  | nil => rfl
  | cons f rest ih =>
    simp only [eachDir, buildDirs, List.filter_cons, List.map_cons]
    cases hd : f.isDir with
    | false => simpa [hd, buildDirs] using ih
    | true =>
      cases hb : isBuildAt (pathJoin dir f.name ++ ".toml") with
      | false => simpa [hd, hb, buildDirs] using ih
      | true =>
        simp only [hd, hb, Bool.not_true, Bool.false_eq_true, if_false, if_true,
          List.filter_cons, List.map_cons, List.flatten, List.cons_append,
          List.nil_append, runOps]
        cases env (.addEnvDir (pathJoin (pathJoin dir f.name) "env")) with
        | error m => simp
        | ok _ =>
          cases env (.addEnvDir (pathJoin (pathJoin dir f.name) "env.build")) with
          | error m => simp
          | ok _ => simpa [buildDirs] using ih

/-- **C4 (amended).** After the child exits, `setupEnv` issues exactly the
two-pass sequence: first `AddRootDir(<dir>)` for every build-flagged layer
dir in lexical (listing) order, then for each such dir in the same order
`AddEnvDir(<dir>/env)` followed by `AddEnvDir(<dir>/env.build)`; the first
error in that sequence propagates. -/
theorem setup_env_two_pass (env : EnvOracle) (isBuildAt : String → Bool)
    (layersDir : String) (listing : List DirEntry) :
    setupEnv env isBuildAt layersDir listing
      = runOps env (setupEnvTrace layersDir isBuildAt listing) := by
  unfold setupEnv setupEnvTrace
  rw [eachDir_pass1, eachDir_pass2, runOps_append]

/-- Counterexample to **C4** as stated: with two build-flagged layers, the
executor does not interleave the three calls per directory — all
`AddRootDir` calls happen first. The first propagated error is the second
directory's `AddRootDir` error, not the first directory's `AddEnvDir`
error the interleaved reading predicts, and the traces differ. -/
theorem setup_env_claim_refuted :
    setupEnv
        (fun op => if op = .addEnvDir "layers/layer1/env" then .error "e1"
          else if op = .addRootDir "layers/layer2" then .error "e2" else .ok ())
        (fun _ => true) "layers" [⟨"layer1", true⟩, ⟨"layer2", true⟩]
      = .error "e2" ∧
    runOps
        (fun op => if op = .addEnvDir "layers/layer1/env" then .error "e1"
          else if op = .addRootDir "layers/layer2" then .error "e2" else .ok ())
        (claimedSetupEnvTrace "layers" (fun _ => true) [⟨"layer1", true⟩, ⟨"layer2", true⟩])
      = .error "e1" ∧
    setupEnvTrace "layers" (fun _ => true) [⟨"layer1", true⟩, ⟨"layer2", true⟩]
      ≠ claimedSetupEnvTrace "layers" (fun _ => true) [⟨"layer1", true⟩, ⟨"layer2", true⟩] := by
  refine ⟨rfl, rfl, by decide⟩

theorem byRegistry_spec (reg : String) (images : List String)
    (pr : String → Option String) (acc : String → Bool)
    (hne : "" ∉ images) :
    byRegistry reg images pr acc
      = (images.find? (fun i => pr i == some reg && acc i)).getD "" := by
  induction images with
  | nil => rfl
  | cons img rest ih =>
    have hrest : "" ∉ rest := fun h => hne (List.mem_cons_of_mem _ h)
    have himg : img ≠ "" := fun h => hne (h ▸ List.mem_cons_self img rest)
    simp only [byRegistry, List.find?]
    cases hp : pr img with
    | none =>
      have hc : (pr img == some reg && acc img) = false := by simp [hp]
      simp [hc, ih hrest]
    | some r =>
      by_cases hr : (r == reg && acc img) = true
      · have hc : (pr img == some reg && acc img) = true := by
          rw [hp]
          simpa using hr
        simp [hr, hc]
      · have hr' : (r == reg && acc img) = false := by
          cases h : (r == reg && acc img)
          · rfl
          · exact absurd h hr
        have hc : (pr img == some reg && acc img) = false := by
          rw [hp]
          simpa using hr'
        simp [hr', hc, ih hrest]

/-- **C3 (amended).** With no empty mirror entry, `BestRunImageMirrorFor`
behaves as: pick the first candidate (image, then mirrors, in order) whose
parsed registry equals the target registry AND whose read-access probe
succeeds; otherwise the first candidate whose probe succeeds; otherwise
fail with "failed to find accessible run image". -/
theorem mirror_selection_amended (targetRegistry : String) (runImageMD : RunImageForExport)
    (pr : String → Option String) (acc : String → Bool) (kc : Except String Unit)
    (hne : "" ∉ runImageMD.mirrors) :
    bestRunImageMirrorFor targetRegistry runImageMD pr acc kc
      = mirrorSelectionSpec targetRegistry runImageMD pr acc kc := by
  unfold bestRunImageMirrorFor mirrorSelectionSpec
  by_cases hi : runImageMD.image = ""
  · simp [hi]
  · have hib : (runImageMD.image == "") = false := by simp [hi]
    simp only [hib, Bool.false_eq_true, if_false]
    cases kc with
    | error m => rfl
    | ok _ =>
      have hne' : "" ∉ runImageMD.image :: runImageMD.mirrors := by
        intro h
        rcases List.mem_cons.mp h with h | h
        · exact hi h.symm
        · exact hne h
      rw [byRegistry_spec _ _ _ _ hne']
      cases hf : (runImageMD.image :: runImageMD.mirrors).find?
          (fun i => pr i == some targetRegistry && acc i) with
      | some i =>
        have hmem := List.mem_of_find?_eq_some hf
        have hine : i ≠ "" := fun h => hne' (h ▸ hmem)
        have hib2 : (i != "") = true := by simpa using hine
        simp [hf, hib2]
      | none => simp [hf]

/-- Witness for `mirror_selection_amended`: the spec's rebase scenario —
target registry `r.example`, mirrors listing `r.example/run` second. -/
theorem mirror_selection_amended_witness :
    bestRunImageMirrorFor "r.example" ⟨"other.example/run", ["r.example/run"]⟩
        (fun s => if s = "other.example/run" then some "other.example"
          else if s = "r.example/run" then some "r.example" else none)
        (fun _ => true) (.ok ())
      = mirrorSelectionSpec "r.example" ⟨"other.example/run", ["r.example/run"]⟩
        (fun s => if s = "other.example/run" then some "other.example"
          else if s = "r.example/run" then some "r.example" else none)
        (fun _ => true) (.ok ()) :=
  mirror_selection_amended "r.example" ⟨"other.example/run", ["r.example/run"]⟩
    (fun s => if s = "other.example/run" then some "other.example"
      else if s = "r.example/run" then some "r.example" else none)
    (fun _ => true) (.ok ()) (by decide)

/-- Counterexample to **C3** as stated: a candidate on the target registry
whose read-access probe fails is skipped — the code falls back to an
accessible candidate on another registry instead of picking the first
registry-matching candidate. -/
theorem mirror_selection_claim_refuted :
    claimedFirstByRegistry "r.example" ["r.example/a", "other.example/b"]
        (fun s => if s = "r.example/a" then some "r.example"
          else if s = "other.example/b" then some "other.example" else none)
      = some "r.example/a" ∧
    bestRunImageMirrorFor "r.example" ⟨"r.example/a", ["other.example/b"]⟩
        (fun s => if s = "r.example/a" then some "r.example"
          else if s = "other.example/b" then some "other.example" else none)
        (fun s => s == "other.example/b") (.ok ())
      = .ok "other.example/b" ∧
    ("other.example/b" : String) ≠ "r.example/a" := by
  refine ⟨rfl, rfl, by decide⟩

theorem isNotAllowlisted_eq (k : String) :
    isNotAllowlisted k = !(allowedNames.contains k) := by
  by_cases h : k ∈ allowedNames
  · simp only [allowedNames, List.mem_cons, List.not_mem_nil, or_false] at h
    rcases h with rfl | rfl | rfl | rfl | rfl | rfl | rfl | rfl <;> rfl
  · simp only [allowedNames, List.mem_cons, List.not_mem_nil, or_false, not_or] at h
    obtain ⟨h1, h2, h3, h4, h5, h6, h7, h8⟩ := h
    simp [isNotAllowlisted, BuildEnvAllowlist, POSIXBuildEnv, allowedNames,
      h1, h2, h3, h4, h5, h6, h7, h8]

/-- **C10.** `NewBuildEnv` keeps exactly the caller variables whose names
are in the allowlist (CNB_STACK_ID, HOSTNAME, HOME) or named by the POSIX
root-dir map (PATH, LD_LIBRARY_PATH, LIBRARY_PATH, CPATH,
PKG_CONFIG_PATH); inserting (hence also removing or changing) any other
caller variable leaves the constructed environment unchanged. -/
theorem build_env_allowlist (environ e1 e2 : List (String × String)) (k v : String)
    (hk : isNotAllowlisted k = true) :
    (NewBuildEnv environ).vars
        = environ.filter (fun kv => allowedNames.contains kv.fst) ∧
    NewBuildEnv (e1 ++ (k, v) :: e2) = NewBuildEnv (e1 ++ e2) := by
  constructor
  · unfold NewBuildEnv varsFromEnviron
    apply List.filter_congr
    intro kv _
    rw [isNotAllowlisted_eq, Bool.not_not]
  · unfold NewBuildEnv
    have hvars : varsFromEnviron (e1 ++ (k, v) :: e2) isNotAllowlisted
        = varsFromEnviron (e1 ++ e2) isNotAllowlisted := by
      unfold varsFromEnviron
      rw [List.filter_append, List.filter_append, List.filter_cons]
      simp [hk]
    rw [hvars]

/-- Witness for `build_env_allowlist` at a concrete input. -/
theorem build_env_allowlist_witness :
    (NewBuildEnv [("HOME", "/root"), ("SECRET", "x")]).vars
        = [("HOME", "/root"), ("SECRET", "x")].filter
            (fun kv => allowedNames.contains kv.fst) ∧
    NewBuildEnv ([("HOME", "/root")] ++ ("SECRET", "x") :: [])
        = NewBuildEnv ([("HOME", "/root")] ++ []) :=
  build_env_allowlist [("HOME", "/root"), ("SECRET", "x")] [("HOME", "/root")] []
    "SECRET" "x" rfl
